import Mathlib

/-!
Shallow embedding of the market-data core of the repository (package
`market`): the multi-timeframe kline cache (`src/market/kline_cache.go`)
and the signal detector (`src/market/signal_detector.go`).

Modelling conventions:
* Go `float64` fields and constants are modelled as exact rationals (`ℚ`);
  every numeric constant in the source is a decimal literal.
* Go `int64` millisecond timestamps are modelled as `Int`.
* The external Market Data Provider (`APIClient.GetKlines`, not part of
  `src/`) is abstracted as a function from timeframe to an optional
  response; `none` models a fetch error, `some ks` a successful response.
* Go maps are modelled as functions into `Option`; mutation is modelled by
  functional update.  Errors returned by cache operations are modelled by
  `Except CacheError`.
-/

/-- A kline/candle, with the fields the source reads (`OpenTime`, OHLCV).
The `Kline` struct itself lives in the provider binding outside `src/`;
its fields are fixed by their uses in `src/market` and by the spec's data
model (open_time integer epoch milliseconds, OHLCV floating point). -/
structure Kline where
  OpenTime : Int
  Open : ℚ
  High : ℚ
  Low : ℚ
  Close : ℚ
  Volume : ℚ
deriving DecidableEq

/-- The six time granularities (Go: `type TimeFrame string` with the six
constants `TimeFrame5m` … `TimeFrame1d`; no other value is ever used). -/
inductive TimeFrame where
  | tf5m
  | tf15m
  | tf30m
  | tf1h
  | tf4h
  | tf1d
deriving DecidableEq

/-- The `timeFrames` slice iterated by `InitSymbol` and `UpdateSymbol`
(kline_cache.go lines 88 and 120). -/
def timeFrames : List TimeFrame :=
  [.tf5m, .tf15m, .tf30m, .tf1h, .tf4h, .tf1d]

/-- The string value of a `TimeFrame` constant ("5m", …, "1d"); it is what
`%s` prints for a `TimeFrame` and also the Binance interval code
(`BinanceIntervalMap` is the identity table on these strings). -/
def timeFrameStr : TimeFrame → String
  | .tf5m => "5m"
  | .tf15m => "15m"
  | .tf30m => "30m"
  | .tf1h => "1h"
  | .tf4h => "4h"
  | .tf1d => "1d"

/-- Per-symbol record: `MultiTimeFrameKline` (kline_cache.go line 43).
`Data` is the Go map `map[TimeFrame][]Kline`; `none` = key absent. -/
structure MultiTimeFrameKline where
  Symbol : String
  Data : TimeFrame → Option (List Kline)

/-- The cache's symbol → record map (`KlineCache.cache`). -/
abbrev Cache := String → Option MultiTimeFrameKline

/-- The error conditions surfaced by the cache operations (the Go code
returns them as formatted error strings). -/
inductive CacheError where
  | notInitialized
  | unknownTimeFrame
  | noData
deriving DecidableEq

/-- One call's provider responses, per timeframe.  Modelled from the spec:
the Market Data Provider (`APIClient`, outside `src/`) supplies ordered
candle sequences for a symbol/interval pair on demand and may fail or
return partial data.  `none` models a failed fetch. -/
abbrev Fetch := TimeFrame → Option (List Kline)

/-- The `for _, tf := range timeFrames` loops of `InitSymbol` and
`UpdateSymbol`: each iteration reads and rewrites the map entry of its own
timeframe only. -/
def applyTFLoop (f : TimeFrame → Option (List Kline) → Option (List Kline))
    (d : TimeFrame → Option (List Kline)) : TimeFrame → Option (List Kline) :=
  timeFrames.foldl (fun acc tf => Function.update acc tf (f tf (acc tf))) d

/-- One iteration of `InitSymbol`'s loop body (kline_cache.go lines 90-100):
a fetch error leaves the timeframe absent (`continue`); a successful
response is stored as-is (also when it is empty). -/
def initStep (fetch : Fetch) (tf : TimeFrame) (cur : Option (List Kline)) :
    Option (List Kline) :=
  match fetch tf with
  | none => cur
  | some klines => some klines

/-- `KlineCache.InitSymbol` (kline_cache.go lines 73-104).  If the symbol
already has a record it returns at once; otherwise it builds a fresh
record from the per-timeframe fetches and installs it.  The Go function
always returns `nil`, so the result is just the new cache; `maxKlines` is
only forwarded to the provider and is absorbed into `fetch`. -/
def InitSymbol (kc : Cache) (symbol : String) (fetch : Fetch) : Cache :=
  match kc symbol with
  | some _ => kc
  | none =>
      Function.update kc symbol
        (some { Symbol := symbol
                Data := applyTFLoop (initStep fetch) (fun _ => none) })

/-- The truncation at the end of `UpdateSymbol`'s loop body
(kline_cache.go lines 156-160): keep at most the newest `maxKeep = 20`
klines. -/
def keep20 (merged : List Kline) : List Kline :=
  if merged.length > 20 then merged.drop (merged.length - 20) else merged

/-- One iteration of `UpdateSymbol`'s loop body (kline_cache.go lines
122-161): skip on fetch error or empty response; adopt the response if the
stored series is empty (a `nil` map entry reads as an empty slice); else
append the whole response when its last open time is strictly newer,
otherwise overwrite the stored last kline in place, and then truncate with
`keep20` (the skip and adopt paths `continue` before the truncation). -/
def mergeStep (fetch : Fetch) (tf : TimeFrame) (cur : Option (List Kline)) :
    Option (List Kline) :=
  match fetch tf with
  | none => cur
  | some newKlines =>
    match newKlines.getLast? with
    | none => cur
    | some lastNew =>
      let existingKlines := cur.getD []
      match existingKlines.getLast? with
      | none => some newKlines
      | some lastExisting =>
        some (keep20
          (if lastNew.OpenTime > lastExisting.OpenTime then
            existingKlines ++ newKlines
          else
            existingKlines.dropLast ++ [lastNew]))

/-- `KlineCache.UpdateSymbol` (kline_cache.go lines 107-164): fails iff the
symbol has no record; otherwise merges each timeframe's fresh fetch into
the stored series. -/
def UpdateSymbol (kc : Cache) (symbol : String) (fetch : Fetch) :
    Except CacheError Cache :=
  match kc symbol with
  | none => .error .notInitialized
  | some mtk =>
      .ok (Function.update kc symbol
        (some { mtk with Data := applyTFLoop (mergeStep fetch) mtk.Data }))

/-- `KlineCache.GetKlines` (kline_cache.go lines 167-190): `NotInitialized`
if the symbol has no record, `UnknownTimeFrame` if the record has no series
for the timeframe, else the newest `limit` klines (the whole series when it
is no longer than `limit`). -/
def GetKlines (kc : Cache) (symbol : String) (timeFrame : TimeFrame)
    (limit : Nat) : Except CacheError (List Kline) :=
  match kc symbol with
  | none => .error .notInitialized
  | some mtk =>
    match mtk.Data timeFrame with
    | none => .error .unknownTimeFrame
    | some klines =>
      if klines.length ≤ limit then .ok klines
      else .ok (klines.drop (klines.length - limit))

/-- `KlineCache.GetLatestKline` (kline_cache.go lines 193-204): `GetKlines`
with limit 1, errors propagated, and an explicit "no klines available"
error on an empty result. -/
def GetLatestKline (kc : Cache) (symbol : String) (timeFrame : TimeFrame) :
    Except CacheError Kline :=
  match GetKlines kc symbol timeFrame 1 with
  | .error e => .error e
  | .ok klines =>
    match klines with
    | [] => .error .noData
    | k :: _ => .ok k

/-- `KlineCache.GetLatestTwoKlines` (kline_cache.go lines 207-209): exactly
`GetKlines` with limit 2 (note: no emptiness check). -/
def GetLatestTwoKlines (kc : Cache) (symbol : String) (timeFrame : TimeFrame) :
    Except CacheError (List Kline) :=
  GetKlines kc symbol timeFrame 2

/-- Signal kinds (`SignalType` constants, signal_detector.go lines 12-17). -/
inductive SignalType where
  | SignalBullishPinBar
  | SignalBearishPinBar
  | SignalVolumeSpike
  | SignalEngulfing
deriving DecidableEq

/-- Signal direction.  The Go field is a `string` documented as
`// "long" or "short"`; those are the only two values the source ever
writes. -/
inductive Direction where
  | long
  | short
deriving DecidableEq

/-- What `%s` prints for a direction. -/
def directionStr : Direction → String
  | .long => "long"
  | .short => "short"

/-- `TradingSignal` (signal_detector.go lines 20-29).  The `Reason` field
(a human-readable log string built with `fmt.Sprintf`) is not modelled; no
behaviour of the source depends on it. -/
structure TradingSignal where
  Symbol : String
  TimeFrame : TimeFrame
  SignalType : SignalType
  Direction : Direction
  Price : ℚ
  StopLoss : ℚ
  Confidence : Int
deriving DecidableEq

/-- Go `math.Abs` on exact rationals. -/
def mathAbs (x : ℚ) : ℚ := if x < 0 then -x else x

/-- Go `math.Max` on exact rationals. -/
def mathMax (a b : ℚ) : ℚ := if a < b then b else a

/-- Go `math.Min` on exact rationals. -/
def mathMin (a b : ℚ) : ℚ := if a < b then a else b

/-- `calculatePinBarConfidence` (signal_detector.go lines 140-173). -/
def calculatePinBarConfidence (shadowLength body oppositeShadow totalRange : ℚ) : Int :=
  let confidence : Int := 60
  let shadowRatioBonus : Int :=
    if shadowLength / totalRange > 0.7 then 25
    else if shadowLength / totalRange > 0.6 then 20
    else if shadowLength / totalRange > 0.5 then 15
    else 0
  let bodyRatioBonus : Int :=
    if body / totalRange < 0.15 then 10
    else if body / totalRange < 0.25 then 5
    else 0
  let oppositeBonus : Int := if oppositeShadow < body * 0.5 then 5 else 0
  let confidence := confidence + shadowRatioBonus + bodyRatioBonus + oppositeBonus
  if confidence > 100 then 100 else confidence

/-- `SignalDetector.DetectPinBar` (signal_detector.go lines 66-137): reads
the latest kline (empty result on any cache error), skips degenerate
candles (`range == 0 || body == 0`), then appends a bullish and/or a
bearish pin-bar signal according to the threshold rules. -/
def DetectPinBar (kc : Cache) (symbol : String) (timeFrame : TimeFrame) :
    List TradingSignal :=
  match GetLatestKline kc symbol timeFrame with
  | .error _ => []
  | .ok kline =>
    let body := mathAbs (kline.Close - kline.Open)
    let upperShadow := kline.High - mathMax kline.Open kline.Close
    let lowerShadow := mathMin kline.Open kline.Close - kline.Low
    let totalRange := kline.High - kline.Low
    if totalRange = 0 ∨ body = 0 then []
    else
      (if lowerShadow > body * 1.5 ∧ body < totalRange * 0.3 ∧ upperShadow < body then
        [{ Symbol := symbol
           TimeFrame := timeFrame
           SignalType := .SignalBullishPinBar
           Direction := .long
           Price := kline.Close
           StopLoss := kline.Low * 0.997
           Confidence := calculatePinBarConfidence lowerShadow body upperShadow totalRange }]
      else []) ++
      (if upperShadow > body * 1.5 ∧ body < totalRange * 0.3 ∧ lowerShadow < body then
        [{ Symbol := symbol
           TimeFrame := timeFrame
           SignalType := .SignalBearishPinBar
           Direction := .short
           Price := kline.Close
           StopLoss := kline.High * 1.003
           Confidence := calculatePinBarConfidence upperShadow body lowerShadow totalRange }]
      else [])

/-- `SignalDetector.DetectEngulfing` (signal_detector.go lines 237-311):
reads the latest two klines (empty result on error or fewer than two),
then appends a bullish and/or bearish engulfing signal according to the
threshold rules; confidence 80, raised to 90 when the current body exceeds
1.5 times the previous body. -/
def DetectEngulfing (kc : Cache) (symbol : String) (timeFrame : TimeFrame) :
    List TradingSignal :=
  match GetLatestTwoKlines kc symbol timeFrame with
  | .error _ => []
  | .ok klines =>
    match klines with
    | prevKline :: currentKline :: _ =>
      let prevBody := mathAbs (prevKline.Close - prevKline.Open)
      let currentBody := mathAbs (currentKline.Close - currentKline.Open)
      (if prevKline.Close < prevKline.Open ∧ currentKline.Close > currentKline.Open ∧
          currentKline.Open < prevKline.Close ∧ currentKline.Close > prevKline.Open ∧
          currentBody > prevBody then
        [{ Symbol := symbol
           TimeFrame := timeFrame
           SignalType := .SignalEngulfing
           Direction := .long
           Price := currentKline.Close
           StopLoss := currentKline.Low * 0.995
           Confidence := if currentBody > prevBody * 1.5 then 90 else 80 }]
      else []) ++
      (if prevKline.Close > prevKline.Open ∧ currentKline.Close < currentKline.Open ∧
          currentKline.Open > prevKline.Close ∧ currentKline.Close < prevKline.Open ∧
          currentBody > prevBody then
        [{ Symbol := symbol
           TimeFrame := timeFrame
           SignalType := .SignalEngulfing
           Direction := .short
           Price := currentKline.Close
           StopLoss := currentKline.High * 1.005
           Confidence := if currentBody > prevBody * 1.5 then 90 else 80 }]
      else [])
    | _ => []

/-- The composite grouping key of `CombineSignals` (signal_detector.go line
337): `fmt.Sprintf("%s_%s_%s", signal.Symbol, signal.TimeFrame,
signal.Direction)`. -/
def signalKey (signal : TradingSignal) : String :=
  signal.Symbol ++ "_" ++ timeFrameStr signal.TimeFrame ++ "_" ++ directionStr signal.Direction

/-- `CombineSignals` (signal_detector.go lines 333-342): folds the input
into a map from key to the signals appended under that key, in input
order; a missing key reads as the empty list (Go `nil` slice). -/
def CombineSignals (signals : List TradingSignal) : String → List TradingSignal :=
  signals.foldl
    (fun combined signal =>
      Function.update combined (signalKey signal) (combined (signalKey signal) ++ [signal]))
    (fun _ => [])

/-!
Concrete inputs used by the closed theorems below.  Rational constant
arithmetic is irreducible by default in core Lean; making it
semireducible again lets `decide`/`rfl` evaluate the embedded operations
on these inputs.
-/

unseal Rat.mul Rat.add Rat.sub Rat.inv Rat.ofScientific

/-- The empty cache (no symbol initialized). -/
def emptyCache : Cache := fun _ => none

/-- A stored 5m candle with open time 1000 (still forming when fetched at
init). -/
def kOld : Kline :=
  { OpenTime := 1000, Open := 10, High := 12, Low := 9, Close := 11, Volume := 5 }

/-- The same 5m period as `kOld` in its final, closed state. -/
def kClosed : Kline :=
  { OpenTime := 1000, Open := 10, High := 13, Low := 9, Close := 12, Volume := 6 }

/-- The next 5m period's candle, open time 2000. -/
def kNew : Kline :=
  { OpenTime := 2000, Open := 12, High := 14, Low := 11, Close := 13, Volume := 7 }

/-- Init-call provider responses: one 5m candle, every other fetch fails. -/
def fetchInit : Fetch := fun tf =>
  match tf with
  | .tf5m => some [kOld]
  | _ => none

/-- Update-call provider responses: the latest two 5m candles (the closed
final state of period 1000 and the new period 2000), ordered with unique
open times; every other fetch fails. -/
def fetchUpd : Fetch := fun tf =>
  match tf with
  | .tf5m => some [kClosed, kNew]
  | _ => none

/-- The cache after initializing "BTC" with `fetchInit`. -/
def cacheBTC : Cache := InitSymbol emptyCache "BTC" fetchInit

/-- The stored 5m series of "BTC" after one `UpdateSymbol` with
`fetchUpd`. -/
def seriesAfterUpd : Except CacheError (List Kline) :=
  match UpdateSymbol cacheBTC "BTC" fetchUpd with
  | .ok kc => GetKlines kc "BTC" .tf5m 20
  | .error e => .error e

/-- The cache after that `UpdateSymbol` call. -/
def cacheAfterUpd : Cache :=
  match UpdateSymbol cacheBTC "BTC" fetchUpd with
  | .ok kc => kc
  | .error _ => cacheBTC

/-- A cache holding a symbol whose 5m series is present but empty (the
provider answered the init fetch with an empty slice). -/
def cacheEmpty5m : Cache :=
  InitSymbol emptyCache "EMPTY" (fun tf =>
    match tf with
    | .tf5m => some []
    | _ => none)

/-- The spec's pin-bar boundary candle `{open:100, high:101, low:90,
close:100.5}`: body 0.5, upper shadow 0.5, lower shadow 10, range 11. -/
def pinBarKline : Kline :=
  { OpenTime := 1, Open := 100, High := 101, Low := 90, Close := 100.5, Volume := 1 }

/-- A cache whose latest "PIN" 5m candle is `pinBarKline`. -/
def pinBarCache : Cache :=
  InitSymbol emptyCache "PIN" (fun tf =>
    match tf with
    | .tf5m => some [pinBarKline]
    | _ => none)

/-- The spec's engulfing example, previous candle `{open:105, close:100}`. -/
def engulfPrev : Kline :=
  { OpenTime := 1000, Open := 105, High := 106, Low := 99, Close := 100, Volume := 1 }

/-- The spec's engulfing example, current candle `{open:99, close:107}`. -/
def engulfCurr : Kline :=
  { OpenTime := 2000, Open := 99, High := 108, Low := 98, Close := 107, Volume := 1 }

/-- A cache whose latest two "ETH" 1h candles are the engulfing example. -/
def engulfCache : Cache :=
  InitSymbol emptyCache "ETH" (fun tf =>
    match tf with
    | .tf1h => some [engulfPrev, engulfCurr]
    | _ => none)

/-!
Theorems.
-/

/-- Each loop iteration touches only its own timeframe's entry, and
`timeFrames` lists each of the six exactly once, so the loop's effect is
pointwise. -/
theorem applyTFLoop_apply (f : TimeFrame → Option (List Kline) → Option (List Kline))
    (d : TimeFrame → Option (List Kline)) (t : TimeFrame) :
    applyTFLoop f d t = f t (d t) := by
  cases t <;> rfl

/-- C1: code bug.  With "BTC"'s 5m series at `[kOld]` (latest open time
1000) and a two-candle update fetch `[kClosed, kNew]` whose latest open
time 2000 is strictly greater, `UpdateSymbol` appends the whole fetched
slice (`append(existingKlines, newKlines...)`, kline_cache.go line 148):
the series grows by two elements to `[kOld, kClosed, kNew]`, and its last
two entries are the two fetched candles, not the previous final candle
followed by the fetched latest one as the spec's merge policy states. -/
theorem updateSymbol_appends_whole_fetch :
    GetKlines cacheBTC "BTC" TimeFrame.tf5m 20 = .ok [kOld] ∧
    seriesAfterUpd = .ok [kOld, kClosed, kNew] ∧
    [kOld, kClosed, kNew].length = 3 := by
  exact ⟨rfl, rfl, rfl⟩

/-- C2: code bug.  In the same run every provider response is
chronologically ordered with unique open times (`[kOld]`, then
`[kClosed, kNew]` with 1000 < 2000), yet the stored series ends up with
two candles sharing open time 1000, so its open times are not strictly
ascending and pairwise distinct. -/
theorem updateSymbol_breaks_ordering_invariant :
    seriesAfterUpd = .ok [kOld, kClosed, kNew] ∧
    List.Pairwise (fun a b : Kline => a.OpenTime < b.OpenTime) [kClosed, kNew] ∧
    ¬ List.Pairwise (fun a b : Kline => a.OpenTime < b.OpenTime) [kOld, kClosed, kNew] := by
  refine ⟨rfl, by decide, by decide⟩

/-- `GetKlines` never produces the no-data error (its only failures are
the two lookup failures). -/
theorem getKlines_ne_noData (kc : Cache) (symbol : String) (tf : TimeFrame)
    (limit : Nat) : GetKlines kc symbol tf limit ≠ .error .noData := by
  unfold GetKlines
  cases hkc : kc symbol with
  | none => simp
  | some mtk =>
    cases hd : mtk.Data tf with
    | none => simp [hd]
    | some klines =>
      by_cases hl : klines.length ≤ limit <;> simp [hd, hl]

/-- C5: `GetKlines` fails with `notInitialized` exactly when the symbol has
no record, with `unknownTimeFrame` exactly when the record lacks a series
for the timeframe, and otherwise returns the suffix of the stored series
of length `min limit n` (the most recent candles, in chronological
order). -/
theorem getKlines_spec (kc : Cache) (symbol : String) (tf : TimeFrame)
    (limit : Nat) :
    (GetKlines kc symbol tf limit = .error .notInitialized ↔ kc symbol = none) ∧
    (GetKlines kc symbol tf limit = .error .unknownTimeFrame ↔
      ∃ mtk, kc symbol = some mtk ∧ mtk.Data tf = none) ∧
    (∀ mtk klines, kc symbol = some mtk → mtk.Data tf = some klines →
      GetKlines kc symbol tf limit = .ok (klines.drop (klines.length - limit)) ∧
      (klines.drop (klines.length - limit)).length = min limit klines.length ∧
      klines.drop (klines.length - limit) <:+ klines) := by
  refine ⟨?_, ?_, ?_⟩
  · cases hkc : kc symbol with
    | none => simp [GetKlines, hkc]
    | some mtk =>
      cases hd : mtk.Data tf with
      | none => simp [GetKlines, hkc, hd]
      | some klines =>
        by_cases hl : klines.length ≤ limit <;> simp [GetKlines, hkc, hd, hl]
  · cases hkc : kc symbol with
    | none => simp [GetKlines, hkc]
    | some mtk =>
      cases hd : mtk.Data tf with
      | none => simp [GetKlines, hkc, hd]
      | some klines =>
        by_cases hl : klines.length ≤ limit <;> simp [GetKlines, hkc, hd, hl]
  · intro mtk klines hkc hd
    by_cases hl : klines.length ≤ limit
    · rw [Nat.sub_eq_zero_of_le hl, List.drop_zero]
      exact ⟨by simp [GetKlines, hkc, hd, hl],
        by rw [Nat.min_eq_right hl], List.suffix_refl klines⟩
    · exact ⟨by simp [GetKlines, hkc, hd, hl],
        by rw [List.length_drop]; omega, List.drop_suffix _ _⟩

/-- Witness for C5 at a concrete input: the newest single candle of the
stored one-candle 5m series of "BTC". -/
theorem getKlines_spec_witness :
    GetKlines cacheBTC "BTC" TimeFrame.tf5m 1 = .ok ([kOld].drop ([kOld].length - 1)) ∧
    ([kOld].drop ([kOld].length - 1)).length = min 1 [kOld].length ∧
    [kOld].drop ([kOld].length - 1) <:+ [kOld] :=
  (getKlines_spec cacheBTC "BTC" TimeFrame.tf5m 1).2.2 _ [kOld] rfl rfl

/-- C3 (amended): `GetLatestKline` propagates `GetKlines` errors unchanged,
fails with the explicit no-data error exactly when `GetKlines` with limit 1
succeeded with an empty slice, and returns the first candle of a non-empty
result; `GetLatestTwoKlines`, by contrast, is literally `GetKlines` with
limit 2, with no emptiness check at all. -/
theorem getLatest_spec (kc : Cache) (symbol : String) (tf : TimeFrame) :
    (∀ e, GetKlines kc symbol tf 1 = .error e →
      GetLatestKline kc symbol tf = .error e) ∧
    (GetLatestKline kc symbol tf = .error .noData ↔
      GetKlines kc symbol tf 1 = .ok []) ∧
    (∀ k rest, GetKlines kc symbol tf 1 = .ok (k :: rest) →
      GetLatestKline kc symbol tf = .ok k) ∧
    GetLatestTwoKlines kc symbol tf = GetKlines kc symbol tf 2 := by
  refine ⟨?_, ?_, ?_, rfl⟩
  · intro e he
    simp [GetLatestKline, he]
  · cases h : GetKlines kc symbol tf 1 with
    | error e =>
      simp only [GetLatestKline, h]
      constructor
      · intro he
        exact absurd (by rw [h]; exact congrArg Except.error (Except.error.inj he)) 
          (getKlines_ne_noData kc symbol tf 1)
      · intro he
        exact absurd he (by simp)
    | ok klines =>
      cases klines with
      | nil => simp [GetLatestKline, h]
      | cons k rest => simp [GetLatestKline, h]
  · intro k rest h
    simp [GetLatestKline, h]

/-- C3: counterexample.  For a symbol whose stored 5m series is present but
empty, `GetKlines` with limit 2 succeeds with an empty slice, and
`GetLatestTwoKlines` returns that success unchanged instead of failing
with the no-data error (which `GetLatestKline` does produce). -/
theorem getLatestTwoKlines_missing_noData_check :
    GetKlines cacheEmpty5m "EMPTY" TimeFrame.tf5m 2 = .ok [] ∧
    GetLatestTwoKlines cacheEmpty5m "EMPTY" TimeFrame.tf5m = .ok [] ∧
    GetLatestTwoKlines cacheEmpty5m "EMPTY" TimeFrame.tf5m ≠ .error .noData ∧
    GetLatestKline cacheEmpty5m "EMPTY" TimeFrame.tf5m = .error .noData := by
  refine ⟨rfl, rfl, ?_, rfl⟩
  intro h
  rw [show GetLatestTwoKlines cacheEmpty5m "EMPTY" TimeFrame.tf5m = .ok [] from rfl] at h
  exact Except.noConfusion h

/-- Witness for the amended C3 at a concrete input: the one-candle 5m
series of "BTC" yields its only candle. -/
theorem getLatest_spec_witness :
    GetLatestKline cacheBTC "BTC" TimeFrame.tf5m = .ok kOld :=
  (getLatest_spec cacheBTC "BTC" TimeFrame.tf5m).2.2.1 kOld [] rfl

/-- `math.Abs` is nonnegative. -/
theorem mathAbs_nonneg (x : ℚ) : 0 ≤ mathAbs x := by
  unfold mathAbs
  split <;> linarith

/-- C9: `DetectPinBar` returns at most one signal per call: the bullish
condition forces `lowerShadow > 1.5 * body` and the bearish condition
forces `lowerShadow < body`, which cannot hold together once the
degenerate-candle guard has ensured `body > 0`. -/
theorem detectPinBar_at_most_one (kc : Cache) (symbol : String)
    (tf : TimeFrame) : (DetectPinBar kc symbol tf).length ≤ 1 := by
  unfold DetectPinBar
  cases h : GetLatestKline kc symbol tf with
  | error e => simp
  | ok kline =>
    simp only []
    split
    · simp
    · rename_i hdeg
      split
      · rename_i hbull
        split
        · rename_i hbear
          exfalso
          have hb0 : 0 ≤ mathAbs (kline.Close - kline.Open) := mathAbs_nonneg _
          have hbne : mathAbs (kline.Close - kline.Open) ≠ 0 := fun hz => hdeg (Or.inr hz)
          have hbpos : 0 < mathAbs (kline.Close - kline.Open) :=
            lt_of_le_of_ne hb0 (Ne.symm hbne)
          have h1 := hbull.1
          have h2 := hbear.2.2
          linarith
        · simp
      · split <;> simp

/-- C6: for a latest candle with nonzero range and body, `DetectPinBar`
emits a bullish (long) pin-bar signal exactly when
`lowerShadow > 1.5 * body`, `body < 0.3 * range` and
`upperShadow < body`, all three strictly; and on the spec's boundary
candle `{open 100, high 101, low 90, close 100.5}` (where
`upperShadow = body = 0.5`) it emits no signal at all. -/
theorem detectPinBar_bullish_iff :
    (∀ (kc : Cache) (symbol : String) (tf : TimeFrame) (kline : Kline),
      GetLatestKline kc symbol tf = .ok kline →
      kline.High - kline.Low ≠ 0 →
      mathAbs (kline.Close - kline.Open) ≠ 0 →
      ((∃ s ∈ DetectPinBar kc symbol tf,
          s.SignalType = SignalType.SignalBullishPinBar ∧ s.Direction = Direction.long) ↔
        (mathMin kline.Open kline.Close - kline.Low > 1.5 * mathAbs (kline.Close - kline.Open) ∧
         mathAbs (kline.Close - kline.Open) < 0.3 * (kline.High - kline.Low) ∧
         kline.High - mathMax kline.Open kline.Close < mathAbs (kline.Close - kline.Open)))) ∧
    DetectPinBar pinBarCache "PIN" TimeFrame.tf5m = [] := by
  constructor
  · intro kc symbol tf kline h hr hb
    unfold DetectPinBar
    rw [h]
    simp only []
    rw [if_neg (by push_neg; exact ⟨hr, hb⟩)]
    by_cases hbull :
        mathMin kline.Open kline.Close - kline.Low > mathAbs (kline.Close - kline.Open) * 1.5 ∧
        mathAbs (kline.Close - kline.Open) < (kline.High - kline.Low) * 0.3 ∧
        kline.High - mathMax kline.Open kline.Close < mathAbs (kline.Close - kline.Open)
    · rw [if_pos hbull]
      refine iff_of_true
        ⟨_, List.mem_append_left _ (List.mem_singleton_self _), rfl, rfl⟩
        ⟨by linarith [hbull.1], by linarith [hbull.2.1], hbull.2.2⟩
    · rw [if_neg hbull]
      refine iff_of_false ?_ ?_
      · rintro ⟨s, hs, hT, hD⟩
        rw [List.nil_append] at hs
        by_cases hbear :
            kline.High - mathMax kline.Open kline.Close > mathAbs (kline.Close - kline.Open) * 1.5 ∧
            mathAbs (kline.Close - kline.Open) < (kline.High - kline.Low) * 0.3 ∧
            mathMin kline.Open kline.Close - kline.Low < mathAbs (kline.Close - kline.Open)
        · rw [if_pos hbear, List.mem_singleton] at hs
          subst hs
          exact SignalType.noConfusion hT
        · rw [if_neg hbear] at hs
          exact absurd hs (List.not_mem_nil s)
      · intro hR
        exact hbull ⟨by linarith [hR.1], by linarith [hR.2.1], hR.2.2⟩
  · rfl

/-- Witness for C6 at the spec's boundary candle: the bullish-signal
criterion evaluates (falsely) there, since its third comparison
`upperShadow < body` fails at `0.5 < 0.5`. -/
theorem detectPinBar_bullish_iff_witness :
    (∃ s ∈ DetectPinBar pinBarCache "PIN" TimeFrame.tf5m,
        s.SignalType = SignalType.SignalBullishPinBar ∧ s.Direction = Direction.long) ↔
      (mathMin pinBarKline.Open pinBarKline.Close - pinBarKline.Low >
          1.5 * mathAbs (pinBarKline.Close - pinBarKline.Open) ∧
        mathAbs (pinBarKline.Close - pinBarKline.Open) <
          0.3 * (pinBarKline.High - pinBarKline.Low) ∧
        pinBarKline.High - mathMax pinBarKline.Open pinBarKline.Close <
          mathAbs (pinBarKline.Close - pinBarKline.Open)) :=
  detectPinBar_bullish_iff.1 pinBarCache "PIN" TimeFrame.tf5m pinBarKline rfl
    (by decide) (by decide)

/-- C7: for latest two candles `P`, `C`, `DetectEngulfing` emits a long
signal exactly when `P` is bearish, `C` is bullish, `C.Open < P.Close`,
`C.Close > P.Open` and the current body strictly exceeds the previous
body; its confidence is 90 when `currentBody > 1.5 * prevBody` strictly
and 80 otherwise.  On the spec's example (`P` open 105 close 100, `C`
open 99 close 107) it emits exactly one long signal with confidence 90. -/
theorem detectEngulfing_long_spec :
    (∀ (kc : Cache) (symbol : String) (tf : TimeFrame) (P C : Kline),
      GetLatestTwoKlines kc symbol tf = .ok [P, C] →
      (DetectEngulfing kc symbol tf).filter
          (fun s => decide (s.Direction = Direction.long)) =
        (if P.Close < P.Open ∧ C.Close > C.Open ∧ C.Open < P.Close ∧
            C.Close > P.Open ∧
            mathAbs (C.Close - C.Open) > mathAbs (P.Close - P.Open) then
          [{ Symbol := symbol
             TimeFrame := tf
             SignalType := .SignalEngulfing
             Direction := .long
             Price := C.Close
             StopLoss := C.Low * 0.995
             Confidence :=
               if mathAbs (C.Close - C.Open) > mathAbs (P.Close - P.Open) * 1.5 then 90
               else 80 }]
        else [])) ∧
    DetectEngulfing engulfCache "ETH" TimeFrame.tf1h =
      [{ Symbol := "ETH"
         TimeFrame := .tf1h
         SignalType := .SignalEngulfing
         Direction := .long
         Price := 107
         StopLoss := 97.51
         Confidence := 90 }] := by
  constructor
  · intro kc symbol tf P C h
    unfold DetectEngulfing
    rw [h]
    simp only []
    by_cases hbull : P.Close < P.Open ∧ C.Close > C.Open ∧ C.Open < P.Close ∧
        C.Close > P.Open ∧ mathAbs (C.Close - C.Open) > mathAbs (P.Close - P.Open)
    · rw [if_pos hbull]
      by_cases hbear : P.Close > P.Open ∧ C.Close < C.Open ∧ C.Open > P.Close ∧
          C.Close < P.Open ∧ mathAbs (C.Close - C.Open) > mathAbs (P.Close - P.Open)
      · rw [if_pos hbear]
        simp [List.filter]
      · rw [if_neg hbear]
        simp [List.filter]
    · rw [if_neg hbull]
      by_cases hbear : P.Close > P.Open ∧ C.Close < C.Open ∧ C.Open > P.Close ∧
          C.Close < P.Open ∧ mathAbs (C.Close - C.Open) > mathAbs (P.Close - P.Open)
      · rw [if_pos hbear]
        simp [List.filter]
      · rw [if_neg hbear]
        simp [List.filter]
  · rfl

/-- Witness for C7 at the spec's engulfing example. -/
theorem detectEngulfing_long_spec_witness :
    (DetectEngulfing engulfCache "ETH" TimeFrame.tf1h).filter
        (fun s => decide (s.Direction = Direction.long)) =
      (if engulfPrev.Close < engulfPrev.Open ∧ engulfCurr.Close > engulfCurr.Open ∧
          engulfCurr.Open < engulfPrev.Close ∧ engulfCurr.Close > engulfPrev.Open ∧
          mathAbs (engulfCurr.Close - engulfCurr.Open) >
            mathAbs (engulfPrev.Close - engulfPrev.Open) then
        [{ Symbol := "ETH"
           TimeFrame := TimeFrame.tf1h
           SignalType := .SignalEngulfing
           Direction := .long
           Price := engulfCurr.Close
           StopLoss := engulfCurr.Low * 0.995
           Confidence :=
             if mathAbs (engulfCurr.Close - engulfCurr.Open) >
                 mathAbs (engulfPrev.Close - engulfPrev.Open) * 1.5 then 90
             else 80 }]
      else []) :=
  detectEngulfing_long_spec.1 engulfCache "ETH" TimeFrame.tf1h engulfPrev engulfCurr rfl

/-- A list with a last element is non-empty. -/
theorem ne_nil_of_getLast? {α : Type} {l : List α} {a : α}
    (h : l.getLast? = some a) : l ≠ [] := by
  intro hnil
  subst hnil
  simp at h

/-- Dropping fewer elements than the length preserves the last element. -/
theorem getLast?_drop_of_lt {α : Type} (l : List α) (n : Nat)
    (h : n < l.length) : (l.drop n).getLast? = l.getLast? := by
  have hne : l.drop n ≠ [] := by
    intro hnil
    have := congrArg List.length hnil
    rw [List.length_drop] at this
    simp only [List.length_nil] at this
    omega
  conv_rhs => rw [← List.take_append_drop n l]
  exact (List.getLast?_append_of_ne_nil _ hne).symm

/-- The truncated series never exceeds 20 klines. -/
theorem keep20_length (l : List Kline) : (keep20 l).length ≤ 20 := by
  unfold keep20
  split
  · rw [List.length_drop]
    omega
  · omega

/-- Truncation is the identity on series of at most 20 klines. -/
theorem keep20_of_le {l : List Kline} (h : l.length ≤ 20) : keep20 l = l := by
  unfold keep20
  rw [if_neg]
  omega

/-- Truncation preserves the last element. -/
theorem keep20_getLast? (l : List Kline) : (keep20 l).getLast? = l.getLast? := by
  unfold keep20
  split
  · rename_i h
    exact getLast?_drop_of_lt l _ (by omega)
  · rfl

/-- `mergeStep` on a failed fetch leaves the entry unchanged. -/
theorem mergeStep_fetch_none {fetch : Fetch} {tf : TimeFrame}
    (hf : fetch tf = none) (cur : Option (List Kline)) :
    mergeStep fetch tf cur = cur := by
  simp only [mergeStep, hf]

/-- `mergeStep` on an empty response leaves the entry unchanged. -/
theorem mergeStep_resp_nil {fetch : Fetch} {tf : TimeFrame} {r : List Kline}
    (hf : fetch tf = some r) (hL : r.getLast? = none)
    (cur : Option (List Kline)) : mergeStep fetch tf cur = cur := by
  simp only [mergeStep, hf, hL]

/-- `mergeStep` adopts a non-empty response when the stored series is
empty or absent. -/
theorem mergeStep_adopt {fetch : Fetch} {tf : TimeFrame} {r : List Kline}
    {lastNew : Kline} {cur : Option (List Kline)}
    (hf : fetch tf = some r) (hL : r.getLast? = some lastNew)
    (hE : (cur.getD []).getLast? = none) :
    mergeStep fetch tf cur = some r := by
  simp only [mergeStep, hf, hL, hE]

/-- `mergeStep` on a non-empty response and non-empty stored series:
append the response or overwrite the last stored kline, then truncate. -/
theorem mergeStep_merge {fetch : Fetch} {tf : TimeFrame} {r : List Kline}
    {lastNew lastExisting : Kline} {cur : Option (List Kline)}
    (hf : fetch tf = some r) (hL : r.getLast? = some lastNew)
    (hE : (cur.getD []).getLast? = some lastExisting) :
    mergeStep fetch tf cur =
      some (keep20
        (if lastNew.OpenTime > lastExisting.OpenTime then cur.getD [] ++ r
        else (cur.getD []).dropLast ++ [lastNew])) := by
  simp only [mergeStep, hf, hL, hE]

/-- One timeframe's merge is idempotent for a fixed response of at most 20
klines: after the first merge the stored last kline is the response's last
kline, so the second merge takes the overwrite branch and rewrites it with
itself, and the series is already within the retention cap. -/
theorem mergeStep_idem (fetch : Fetch) (tf : TimeFrame)
    (hlen : ∀ r, fetch tf = some r → r.length ≤ 20)
    (cur : Option (List Kline)) :
    mergeStep fetch tf (mergeStep fetch tf cur) = mergeStep fetch tf cur := by
  cases hf : fetch tf with
  | none => rw [mergeStep_fetch_none hf, mergeStep_fetch_none hf]
  | some r =>
    cases hL : r.getLast? with
    | none => rw [mergeStep_resp_nil hf hL, mergeStep_resp_nil hf hL]
    | some lastNew =>
      have hmem : lastNew ∈ r.getLast? := Option.mem_def.mpr hL
      cases hE : (cur.getD []).getLast? with
      | none =>
        rw [mergeStep_adopt hf hL hE]
        rw [mergeStep_merge hf hL
          (show ((some r : Option (List Kline)).getD []).getLast? = some lastNew
            by simpa using hL)]
        rw [if_neg (lt_irrefl _)]
        simp only [Option.getD_some]
        rw [List.dropLast_append_getLast? lastNew hmem]
        rw [keep20_of_le (hlen r hf)]
      | some lastExisting =>
        rw [mergeStep_merge hf hL hE]
        have hrne : r ≠ [] := ne_nil_of_getLast? hL
        have hml :
            (if lastNew.OpenTime > lastExisting.OpenTime then cur.getD [] ++ r
              else (cur.getD []).dropLast ++ [lastNew]).getLast? = some lastNew := by
          split
          · exact List.getLast?_append_of_ne_nil _ hrne ▸ hL
          · exact List.getLast?_concat _
        have hMl :
            (keep20 (if lastNew.OpenTime > lastExisting.OpenTime then cur.getD [] ++ r
              else (cur.getD []).dropLast ++ [lastNew])).getLast? = some lastNew := by
          rw [keep20_getLast?]
          exact hml
        rw [mergeStep_merge hf hL (by simpa using hMl)]
        rw [if_neg (lt_irrefl _)]
        simp only [Option.getD_some]
        rw [List.dropLast_append_getLast? lastNew (Option.mem_def.mpr hMl)]
        rw [keep20_of_le (keep20_length _)]

/-- C4: merge idempotence.  If `UpdateSymbol` succeeds and the provider
returns the same data again (each response is an answer to a limit-2
request, so it has at most 2 klines), a second `UpdateSymbol` leaves the
cache — in particular every stored series of the symbol — unchanged. -/
theorem updateSymbol_idem (kc : Cache) (symbol : String) (fetch : Fetch)
    (kc1 : Cache) (hlen : ∀ tf r, fetch tf = some r → r.length ≤ 2)
    (h1 : UpdateSymbol kc symbol fetch = .ok kc1) :
    UpdateSymbol kc1 symbol fetch = .ok kc1 := by
  unfold UpdateSymbol at h1 ⊢
  cases hk : kc symbol with
  | none =>
    rw [hk] at h1
    exact absurd h1 (by simp)
  | some mtk =>
    rw [hk] at h1
    simp only [Except.ok.injEq] at h1
    have hks : kc1 symbol =
        some { mtk with Data := applyTFLoop (mergeStep fetch) mtk.Data } := by
      rw [← h1, Function.update_same]
    rw [hks]
    have hdata :
        applyTFLoop (mergeStep fetch) (applyTFLoop (mergeStep fetch) mtk.Data) =
          applyTFLoop (mergeStep fetch) mtk.Data := by
      funext t
      simp only [applyTFLoop_apply]
      exact mergeStep_idem fetch t
        (fun r hr => le_trans (hlen t r hr) (by norm_num)) (mtk.Data t)
    simp only [hdata]
    rw [← h1, Function.update_idem]

/-- Witness for C4: a second update of "BTC" with the same two-candle 5m
response leaves the updated cache unchanged. -/
theorem updateSymbol_idem_witness :
    UpdateSymbol cacheAfterUpd "BTC" fetchUpd = .ok cacheAfterUpd :=
  updateSymbol_idem cacheBTC "BTC" fetchUpd cacheAfterUpd
    (by
      intro tf r hr
      cases tf <;> simp only [fetchUpd, Option.some.injEq] at hr <;> try exact absurd hr (by simp)
      rw [← hr]
      norm_num)
    rfl

/-- Scanning an underscore-free block up to an underscore separator takes
exactly the block and leaves the separator and the tail. -/
theorem scan_to_underscore (l : List Char) :
    ∀ v : List Char, (∀ c ∈ l, c ≠ '_') →
      (l ++ '_' :: v).takeWhile (fun c => c != '_') = l ∧
      (l ++ '_' :: v).dropWhile (fun c => c != '_') = '_' :: v := by
  induction l with
  | nil =>
    intro v _
    constructor <;> simp [List.takeWhile, List.dropWhile]
  | cons c cs ih =>
    intro v hl
    have hc : (c != '_') = true := by
      simpa using hl c (by simp)
    obtain ⟨ih1, ih2⟩ := ih v (fun x hx => hl x (by simp [hx]))
    constructor
    · simp [List.takeWhile, hc, ih1]
    · simp [List.dropWhile, hc, ih2]

/-- Reversing the raw character sequence of a grouping key. -/
theorem key_chars_reverse (s t d : List Char) :
    (s ++ '_' :: (t ++ '_' :: d)).reverse =
      d.reverse ++ '_' :: (t.reverse ++ '_' :: s.reverse) := by
  simp [List.reverse_append, List.reverse_cons, List.append_assoc]

/-- The underscore-joined key determines its three blocks when the second
and third blocks are underscore-free (the symbol block may itself contain
underscores). -/
theorem key_chars_inj (s1 t1 d1 s2 t2 d2 : List Char)
    (ht1 : ∀ c ∈ t1, c ≠ '_') (hd1 : ∀ c ∈ d1, c ≠ '_')
    (ht2 : ∀ c ∈ t2, c ≠ '_') (hd2 : ∀ c ∈ d2, c ≠ '_')
    (h : s1 ++ '_' :: (t1 ++ '_' :: d1) = s2 ++ '_' :: (t2 ++ '_' :: d2)) :
    s1 = s2 ∧ t1 = t2 ∧ d1 = d2 := by
  have hrev := congrArg List.reverse h
  rw [key_chars_reverse, key_chars_reverse] at hrev
  have hd1r : ∀ c ∈ d1.reverse, c ≠ '_' := fun c hc => hd1 c (List.mem_reverse.mp hc)
  have hd2r : ∀ c ∈ d2.reverse, c ≠ '_' := fun c hc => hd2 c (List.mem_reverse.mp hc)
  have ht1r : ∀ c ∈ t1.reverse, c ≠ '_' := fun c hc => ht1 c (List.mem_reverse.mp hc)
  have ht2r : ∀ c ∈ t2.reverse, c ≠ '_' := fun c hc => ht2 c (List.mem_reverse.mp hc)
  have htk := congrArg (List.takeWhile (fun c => c != '_')) hrev
  have hdr := congrArg (List.dropWhile (fun c => c != '_')) hrev
  rw [(scan_to_underscore d1.reverse _ hd1r).1,
    (scan_to_underscore d2.reverse _ hd2r).1] at htk
  rw [(scan_to_underscore d1.reverse _ hd1r).2,
    (scan_to_underscore d2.reverse _ hd2r).2] at hdr
  have hd : d1 = d2 := List.reverse_injective htk
  have hA : t1.reverse ++ '_' :: s1.reverse = t2.reverse ++ '_' :: s2.reverse :=
    List.cons.inj hdr |>.2
  have htk2 := congrArg (List.takeWhile (fun c => c != '_')) hA
  have hdr2 := congrArg (List.dropWhile (fun c => c != '_')) hA
  rw [(scan_to_underscore t1.reverse _ ht1r).1,
    (scan_to_underscore t2.reverse _ ht2r).1] at htk2
  rw [(scan_to_underscore t1.reverse _ ht1r).2,
    (scan_to_underscore t2.reverse _ ht2r).2] at hdr2
  have ht : t1 = t2 := List.reverse_injective htk2
  have hs : s1 = s2 := List.reverse_injective (List.cons.inj hdr2 |>.2)
  exact ⟨hs, ht, hd⟩

/-- The grouping key's characters, split at its two separator
underscores. -/
theorem signalKey_data (s : TradingSignal) :
    (signalKey s).data =
      s.Symbol.data ++ '_' ::
        ((timeFrameStr s.TimeFrame).data ++ '_' :: (directionStr s.Direction).data) := by
  have hu : ("_" : String).data = ['_'] := rfl
  simp [signalKey, String.data_append, hu, List.append_assoc]

/-- The six timeframe strings contain no underscore. -/
theorem timeFrameStr_no_underscore (t : TimeFrame) :
    ∀ c ∈ (timeFrameStr t).data, c ≠ '_' := by
  cases t <;> decide

/-- The two direction strings contain no underscore. -/
theorem directionStr_no_underscore (d : Direction) :
    ∀ c ∈ (directionStr d).data, c ≠ '_' := by
  cases d <;> decide

/-- The six timeframe strings are pairwise distinct. -/
theorem timeFrameStr_inj {t1 t2 : TimeFrame}
    (h : timeFrameStr t1 = timeFrameStr t2) : t1 = t2 := by
  cases t1 <;> cases t2 <;> first
    | rfl
    | exact absurd h (by decide)

/-- The two direction strings are distinct. -/
theorem directionStr_inj {d1 d2 : Direction}
    (h : directionStr d1 = directionStr d2) : d1 = d2 := by
  cases d1 <;> cases d2 <;> first
    | rfl
    | exact absurd h (by decide)

/-- C8: `CombineSignals` maps each key to exactly the input signals whose
(symbol, timeframe, direction) triple renders to that key, kept in input
order (the filter of the input list), and the rendered key agrees between
two signals exactly when all three components agree — so two signals land
in the same group iff they share symbol, timeframe and direction. -/
theorem combineSignals_spec :
    (∀ (signals : List TradingSignal) (k : String),
      CombineSignals signals k =
        signals.filter (fun s => decide (signalKey s = k))) ∧
    (∀ s1 s2 : TradingSignal,
      signalKey s1 = signalKey s2 ↔
        s1.Symbol = s2.Symbol ∧ s1.TimeFrame = s2.TimeFrame ∧
          s1.Direction = s2.Direction) := by
  constructor
  · intro signals k
    suffices h : ∀ m : String → List TradingSignal,
        (signals.foldl (fun combined signal =>
          Function.update combined (signalKey signal)
            (combined (signalKey signal) ++ [signal])) m) k =
          m k ++ signals.filter (fun s => decide (signalKey s = k)) by
      simpa [CombineSignals] using h (fun _ => [])
    induction signals with
    | nil => intro m; simp
    | cons s rest ih =>
      intro m
      rw [List.foldl_cons, ih]
      by_cases hk : signalKey s = k
      · subst hk
        rw [Function.update_same]
        simp [List.filter_cons, List.append_assoc]
      · rw [Function.update_noteq (fun hkk => hk hkk.symm)]
        simp [List.filter_cons, hk]
  · intro s1 s2
    constructor
    · intro h
      have hdata := congrArg String.data h
      rw [signalKey_data, signalKey_data] at hdata
      obtain ⟨hs, ht, hd⟩ := key_chars_inj _ _ _ _ _ _
        (timeFrameStr_no_underscore _) (directionStr_no_underscore _)
        (timeFrameStr_no_underscore _) (directionStr_no_underscore _) hdata
      exact ⟨String.ext hs, timeFrameStr_inj (String.ext ht),
        directionStr_inj (String.ext hd)⟩
    · rintro ⟨h1, h2, h3⟩
      simp [signalKey, h1, h2, h3]
